import Mathlib

set_option maxRecDepth 40000

/-
Shallow embedding of the addon-scripts mesh slicer.

Sources: src/Slicer.py and src/Blender/Slicer.py. Both files contain an
identical plane intersector and contour tracer (slice_at_z); they differ in
the orchestrator (slice_object) and in the outline algorithm:
src/Blender/Slicer.py builds a bounding-box rectangle
(create_rectangular_outline) and honors slice_direction, while src/Slicer.py
builds a contour-following offset (create_offset_outline) and always slices
bottom to top.

Scalars are modelled as rationals: the Python floats are modelled by exact
arithmetic. The only non-field operation in the source is the square root
inside Vector.normalized; it is modelled by ratSqrt, which is exact on
perfect-square rationals (every theorem below that depends on the value of a
square root evaluates it only at perfect squares) and returns 0 elsewhere,
matching the mathutils convention that normalizing a zero-length vector
yields the zero vector.

Meshes are modelled as the Mesh Snapshot of the spec: world-space vertex
positions, edges as ordered pairs of vertex indices (the key order used by
slice_at_z), and faces as ordered lists of edge indices. The bmesh
iteration orders (bm.edges, edge.link_faces, face.edges) are modelled by
the corresponding list orders.
-/

/-- A 3D point or vector, after mathutils.Vector restricted to 3 components. -/
structure Vec3 where
  x : ℚ
  y : ℚ
  z : ℚ
deriving DecidableEq

instance : Add Vec3 := ⟨fun a b => ⟨a.x + b.x, a.y + b.y, a.z + b.z⟩⟩

instance : Sub Vec3 := ⟨fun a b => ⟨a.x - b.x, a.y - b.y, a.z - b.z⟩⟩

instance : HMul Vec3 ℚ Vec3 := ⟨fun v s => ⟨v.x * s, v.y * s, v.z * s⟩⟩

/-- The Mesh Snapshot: world-space vertices, edges as ordered pairs of vertex
indices, faces as ordered lists of edge indices. -/
structure Mesh where
  verts : List Vec3
  edges : List (Nat × Nat)
  faces : List (List Nat)
deriving DecidableEq

/-- Vertex position by index (bm.verts lookup). -/
def Mesh.vert (m : Mesh) (i : Nat) : Vec3 := m.verts.getD i ⟨0, 0, 0⟩

/-- The key slice_at_z stores an intersection point under:
(edge.verts[0].index, edge.verts[1].index). -/
def edgeKey (m : Mesh) (i : Nat) : Nat × Nat := m.edges.getD i (0, 0)

/-- The sign product (v1.co.z - z) * (v2.co.z - z) for the endpoints named by
an edge key. -/
def prodOfKey (m : Mesh) (h : ℚ) (k : Nat × Nat) : ℚ :=
  ((m.vert k.1).z - h) * ((m.vert k.2).z - h)

/-- The crossing-edge classifier of slice_at_z, line 144 of src/Slicer.py:
(e.verts[0].co.z - z) * (e.verts[1].co.z - z). -/
def crossingProduct (m : Mesh) (h : ℚ) (i : Nat) : ℚ :=
  prodOfKey m h (edgeKey m i)

/-- intersecting_edges: all edge indices whose endpoint z sign product is
at most 0. -/
def intersectingEdges (m : Mesh) (h : ℚ) : List Nat :=
  (List.range m.edges.length).filter fun i => decide (crossingProduct m h i ≤ 0)

/-- mathutils.geometry.intersect_line_plane against the horizontal plane of
height h with normal (0, 0, 1): the infinite line through v1 and v2 meets the
plane at v1 + (v2 - v1) * t with t = (h - v1.z) / (v2.z - v1.z), and the call
returns None when the line is parallel to the plane (v2.z = v1.z). -/
def intersectLinePlane (v1 v2 : Vec3) (h : ℚ) : Option Vec3 :=
  if v2.z - v1.z = 0 then none
  else some (v1 + (v2 - v1) * ((h - v1.z) / (v2.z - v1.z)))

/-- Intersection point computed for the edge named by a key. -/
def isectOfKey (m : Mesh) (h : ℚ) (k : Nat × Nat) : Option Vec3 :=
  intersectLinePlane (m.vert k.1) (m.vert k.2) h

/-- The intersections dictionary of slice_at_z (lines 147 to 153 of
src/Slicer.py), as the association list of key and point entries in insertion
order: an entry is stored for a crossing edge exactly when
intersect_line_plane returns a point. -/
def intersectionsOf (m : Mesh) (h : ℚ) : List ((Nat × Nat) × Vec3) :=
  (intersectingEdges m h).filterMap fun i =>
    (isectOfKey m h (edgeKey m i)).map fun p => (edgeKey m i, p)

/-- intersections.get(key) or intersections.get(rev_key), line 171. -/
def lookupPoint (ints : List ((Nat × Nat) × Vec3)) (k : Nat × Nat) :
    Option Vec3 :=
  (List.lookup k ints).or (List.lookup (k.2, k.1) ints)

/-- Downward search for an exact natural square root: sqrtSearch n k finds the
largest j with j * j = n among 0..k, if any. -/
def sqrtSearch (n : Nat) : Nat → Option Nat
  | 0 => if 0 * 0 = n then some 0 else none
  | k + 1 => if (k + 1) * (k + 1) = n then some (k + 1) else sqrtSearch n k

/-- Exact natural square root: some j with j * j = n, when n is a perfect
square. -/
def exactSqrt (n : Nat) : Option Nat := sqrtSearch n n

/-- Exact-arithmetic model of the floating square root used by
Vector.normalized: exact on perfect-square rationals, 0 elsewhere. Every
theorem below that depends on the value of a square root only applies it to
perfect squares. -/
def ratSqrt (q : ℚ) : ℚ :=
  if 0 ≤ q.num then
    match exactSqrt q.num.toNat, exactSqrt q.den with
    | some a, some b => (a : ℚ) / (b : ℚ)
    | _, _ => 0
  else 0

/-- Vector.normalized: divide by the length; a zero-length vector normalizes
to the zero vector (division by zero yields zero in the rational model, as in
mathutils). -/
def normalized (v : Vec3) : Vec3 :=
  let l := ratSqrt (v.x * v.x + v.y * v.y + v.z * v.z)
  ⟨v.x / l, v.y / l, v.z / l⟩

/-- Python min(f(p) for p in points) over a nonempty list (0 for empty). -/
def listMinBy (f : Vec3 → ℚ) : List Vec3 → ℚ
  | [] => 0
  | p :: ps => ps.foldl (fun a q => min a (f q)) (f p)

/-- Python max(f(p) for p in points) over a nonempty list (0 for empty). -/
def listMaxBy (f : Vec3 → ℚ) : List Vec3 → ℚ
  | [] => 0
  | p :: ps => ps.foldl (fun a q => max a (f q)) (f p)

/-- create_rectangular_outline of src/Blender/Slicer.py lines 164 to 186:
flatten all contour points, take the planar bounding box, use the z of the
first point, and return the four corners outset by the offset. -/
def create_rectangular_outline (contours : List (List Vec3)) (offset : ℚ) :
    List Vec3 :=
  let all_points := contours.flatten
  if all_points.isEmpty then []
  else
    let min_x := listMinBy (fun p => p.x) all_points
    let max_x := listMaxBy (fun p => p.x) all_points
    let min_y := listMinBy (fun p => p.y) all_points
    let max_y := listMaxBy (fun p => p.y) all_points
    let z := (all_points.headD ⟨0, 0, 0⟩).z
    [⟨min_x - offset, min_y - offset, z⟩,
     ⟨max_x + offset, min_y - offset, z⟩,
     ⟨max_x + offset, max_y + offset, z⟩,
     ⟨min_x - offset, max_y + offset, z⟩]

/-- The slice height loop of src/Blender/Slicer.py lines 88 to 92: height i is
z_min + i * layer_height when slicing bottom to top, z_max - i * layer_height
when slicing top to bottom. -/
def Blender.slice_heights (z_min z_max layer_height : ℚ)
    (slice_direction : Bool) (num_layers : Nat) : List ℚ :=
  (List.range num_layers).map fun i =>
    if slice_direction then z_min + (i : ℚ) * layer_height
    else z_max - (i : ℚ) * layer_height

/-- The next-edge search of slice_at_z, lines 176 to 184 of src/Slicer.py:
scan the faces linked to the current edge in order, and inside each face scan
its edges in order, for the first edge that is not the current one, is a
crossing edge, and is not yet used. -/
def findNext (m : Mesh) (inter used : List Nat) (cur : Nat) : Option Nat :=
  ((m.faces.filter fun f => decide (cur ∈ f)).filterMap fun f =>
    f.find? fun e2 => decide (e2 ≠ cur ∧ e2 ∈ inter ∧ e2 ∉ used)).head?

/-- The while True walk of slice_at_z, lines 166 to 189 of src/Slicer.py: mark
the current edge used, append its stored intersection point (if any) to the
contour, and continue with the next linked unused crossing edge; stop when
none exists or the candidate is the start edge. The walk is written with
explicit fuel; walk_terminates below shows that fuel equal to the number of
unused crossing edges always suffices, so the none branch taken on fuel
exhaustion is unreachable from sliceWalk. -/
def walkAux (m : Mesh) (ints : List ((Nat × Nat) × Vec3)) (inter : List Nat)
    (start : Nat) : Nat → List Nat → List Vec3 → Nat →
    Option (List Vec3 × List Nat)
  | 0, _, _, _ => none
  | fuel + 1, used, contour, cur =>
    let used2 := cur :: used
    let contour2 := match lookupPoint ints (edgeKey m cur) with
      | some p => contour ++ [p]
      | none => contour
    match findNext m inter used2 cur with
    | none => some (contour2, used2)
    | some nxt =>
      if nxt = start then some (contour2, used2)
      else walkAux m ints inter start fuel used2 contour2 nxt

/-- The outer contour loop of slice_at_z, lines 156 to 192 of src/Slicer.py:
for each crossing edge not yet used, run the walk from it, and keep the
resulting contour only when it has more than 2 points. The used set threads
through all walks. -/
def traceContours (m : Mesh) (ints : List ((Nat × Nat) × Vec3))
    (inter : List Nat) : List Nat → List Nat → List (List Vec3)
  | [], _ => []
  | e :: rest, used =>
    if e ∈ used then traceContours m ints inter rest used
    else
      match walkAux m ints inter e inter.length used [] e with
      | none => traceContours m ints inter rest used
      | some (contour, used2) =>
        if 2 < contour.length then contour :: traceContours m ints inter rest used2
        else traceContours m ints inter rest used2

/-- slice_at_z, lines 142 to 194 of src/Slicer.py (identical to lines 110 to
162 of src/Blender/Slicer.py): compute the crossing edges and the
intersections dictionary, then trace contours. -/
def slice_at_z (m : Mesh) (h : ℚ) : List (List Vec3) :=
  traceContours m (intersectionsOf m h) (intersectingEdges m h)
    (intersectingEdges m h) []

/-- export_contours_to_dxf, lines 251 to 259 of src/Slicer.py, modelled as
the list of closed polylines actually added to the drawing: each contour is
projected to its (x, y) pairs and emitted only when it has more than 2
points. -/
def export_contours_to_dxf (contours : List (List Vec3)) :
    List (List (ℚ × ℚ)) :=
  contours.filterMap fun c =>
    let points := c.map fun p => (p.x, p.y)
    if 2 < points.length then some points else none

/-- max(contours, key=lambda c: len(c)), line 202 of src/Slicer.py: the first
contour of maximal length (Python max keeps the earliest maximum). -/
def largestContour (cs : List (List Vec3)) : List Vec3 :=
  match cs with
  | [] => []
  | c :: rest => rest.foldl (fun best x => if best.length < x.length then x else best) c

/-- create_offset_outline, lines 196 to 224 of src/Slicer.py: fail on an empty
contour list or a largest contour with fewer than 3 points; otherwise move
every point of the largest contour along the normalized 90-degree rotation of
(next - prev) by the offset. Indices wrap as in Python: prev of index 0 is the
last point. -/
def create_offset_outline (contours : List (List Vec3)) (offset : ℚ) :
    Option (List Vec3) :=
  if contours.isEmpty then none
  else
    let largest := largestContour contours
    if largest.length < 3 then none
    else some ((List.range largest.length).map fun i =>
      let point := largest.getD i ⟨0, 0, 0⟩
      let prev_point := largest.getD ((i + largest.length - 1) % largest.length) ⟨0, 0, 0⟩
      let next_point := largest.getD ((i + 1) % largest.length) ⟨0, 0, 0⟩
      let tangent := next_point - prev_point
      let normal := normalized ⟨-tangent.y, tangent.x, 0⟩
      point + normal * offset)

/-- The operator configuration surface of src/Slicer.py (IntProperty,
BoolProperty, FloatProperty declarations, lines 17 to 39). -/
structure Config where
  num_layers : Nat
  slice_direction : Bool
  add_outline : Bool
  outline_offset : ℚ
deriving DecidableEq

/-- min(bm.verts, key=lambda v: v.co.z).co.z, line 83 of src/Slicer.py
(0 for an empty mesh, which the source would reject before slicing). -/
def lowestZ (m : Mesh) : ℚ :=
  match m.verts with
  | [] => 0
  | v :: vs => vs.foldl (fun a w => min a w.z) v.z

/-- The top of the bounding box, line 88 of src/Slicer.py, modelled as the
largest vertex z of the world-space mesh. -/
def highestZ (m : Mesh) : ℚ :=
  match m.verts with
  | [] => 0
  | v :: vs => vs.foldl (fun a w => max a w.z) v.z

/-- z_min of src/Slicer.py line 84: lowest vertex plus the fixed 0.1
clearance. -/
def Main.z_min (m : Mesh) : ℚ := lowestZ m + 1 / 10

/-- layer_height of src/Slicer.py lines 90 to 91. -/
def Main.layer_height (cfg : Config) (m : Mesh) : ℚ :=
  (highestZ m - Main.z_min m) / (cfg.num_layers : ℚ)

/-- z_slice of src/Slicer.py lines 120 to 121: the loop computes
z_min + i * layer_height unconditionally. The configuration is an argument
but, unlike in src/Blender/Slicer.py lines 88 to 92, cfg.slice_direction is
never consulted, even though the operator declares and reports a
slice_direction option. -/
def Main.slice_z (cfg : Config) (z_min layer_height : ℚ) (i : Nat) : ℚ :=
  z_min + (i : ℚ) * layer_height

/-- slice_object of src/Slicer.py lines 72 to 140, modelled as the list of
per-slice exports: entry i is none when slice i found no contours (no file is
written), and otherwise the contour list handed to export_contours_to_dxf,
with the z-adjusted outline copy appended when the outline option is on and
the outline was built at the lowest level before the loop. -/
def Main.slice_object (cfg : Config) (m : Mesh) :
    List (Option (List (List Vec3))) :=
  let zmin := Main.z_min m
  let lh := Main.layer_height cfg m
  let outline_contour :=
    if cfg.add_outline then create_offset_outline (slice_at_z m zmin) cfg.outline_offset
    else none
  (List.range cfg.num_layers).map fun i =>
    let z := Main.slice_z cfg zmin lh i
    let contours := slice_at_z m z
    if contours.isEmpty then none
    else some (match cfg.add_outline, outline_contour with
      | true, some o => contours ++ [o.map fun p => ⟨p.x, p.y, z⟩]
      | _, _ => contours)

/-- A closed tetrahedron used as a concrete mesh snapshot in witnesses:
vertices at (0,0,0), (2,0,0), (0,2,0), (0,0,2); edge 3, 4, 5 rise from the
base to the apex. -/
def tetMesh : Mesh :=
  ⟨[⟨0, 0, 0⟩, ⟨2, 0, 0⟩, ⟨0, 2, 0⟩, ⟨0, 0, 2⟩],
   [(0, 1), (1, 2), (0, 2), (0, 3), (1, 3), (2, 3)],
   [[0, 1, 2], [0, 4, 3], [1, 5, 4], [2, 3, 5]]⟩

/-- A flat triangle at z = 0: no slice above it has any contour. -/
def triFlatMesh : Mesh :=
  ⟨[⟨0, 0, 0⟩, ⟨1, 0, 0⟩, ⟨0, 1, 0⟩], [(0, 1), (1, 2), (0, 2)], [[0, 1, 2]]⟩

/-- A mesh with a single horizontal edge at z = 1, used to exhibit the
degenerate crossing case. -/
def mC1 : Mesh := ⟨[⟨0, 0, 1⟩, ⟨2, 0, 1⟩], [(0, 1)], []⟩

/-- The axis-aligned diamond with radius c at height z. Its vertex normals are
axis-aligned, so every square root taken by create_offset_outline on it is
exact. -/
def diamond (c z : ℚ) : List Vec3 :=
  [⟨c, 0, z⟩, ⟨0, c, z⟩, ⟨-c, 0, z⟩, ⟨0, -c, z⟩]

/-- A 4 by 3 axis-aligned rectangle contour, the counterexample input for the
offset round trip. -/
def rectC5 : List Vec3 := [⟨0, 0, 0⟩, ⟨4, 0, 0⟩, ⟨4, 3, 0⟩, ⟨0, 3, 0⟩]

lemma foldl_min_le_init (f : Vec3 → ℚ) :
    ∀ (l : List Vec3) (a : ℚ), l.foldl (fun b q => min b (f q)) a ≤ a := by
  intro l
  induction l with
  | nil => intro a; exact le_refl a
  | cons q l ih =>
    intro a
    exact le_trans (ih (min a (f q))) (min_le_left a (f q))

lemma foldl_min_le_mem (f : Vec3 → ℚ) :
    ∀ (l : List Vec3) (a : ℚ) (p : Vec3), p ∈ l →
      l.foldl (fun b q => min b (f q)) a ≤ f p := by
  intro l
  induction l with
  | nil => intro a p hp; cases hp
  | cons q l ih =>
    intro a p hp
    rcases List.mem_cons.mp hp with hq | hl
    · subst hq
      exact le_trans (foldl_min_le_init f l (min a (f p))) (min_le_right a (f p))
    · exact ih (min a (f q)) p hl

lemma listMinBy_le (f : Vec3 → ℚ) (l : List Vec3) (p : Vec3) (hp : p ∈ l) :
    listMinBy f l ≤ f p := by
  cases l with
  | nil => cases hp
  | cons q l =>
    rcases List.mem_cons.mp hp with hq | hl
    · subst hq; exact foldl_min_le_init f l (f p)
    · exact foldl_min_le_mem f l (f q) p hl

lemma foldl_max_ge_init (f : Vec3 → ℚ) :
    ∀ (l : List Vec3) (a : ℚ), a ≤ l.foldl (fun b q => max b (f q)) a := by
  intro l
  induction l with
  | nil => intro a; exact le_refl a
  | cons q l ih =>
    intro a
    exact le_trans (le_max_left a (f q)) (ih (max a (f q)))

lemma foldl_max_ge_mem (f : Vec3 → ℚ) :
    ∀ (l : List Vec3) (a : ℚ) (p : Vec3), p ∈ l →
      f p ≤ l.foldl (fun b q => max b (f q)) a := by
  intro l
  induction l with
  | nil => intro a p hp; cases hp
  | cons q l ih =>
    intro a p hp
    rcases List.mem_cons.mp hp with hq | hl
    · subst hq
      exact le_trans (le_max_right a (f p)) (foldl_max_ge_init f l (max a (f p)))
    · exact ih (max a (f q)) p hl

lemma le_listMaxBy (f : Vec3 → ℚ) (l : List Vec3) (p : Vec3) (hp : p ∈ l) :
    f p ≤ listMaxBy f l := by
  cases l with
  | nil => cases hp
  | cons q l =>
    rcases List.mem_cons.mp hp with hq | hl
    · subst hq; exact foldl_max_ge_init f l (f p)
    · exact foldl_max_ge_mem f l (f q) p hl

/-- C4: for every nonempty input, create_rectangular_outline returns exactly
the four corners of the axis-aligned bounding rectangle outset by the offset,
at the z of the first input point, and every input point sits inside it with
margin at least the offset on each axis (for a nonnegative offset the margin
inequalities say precisely that the point is inside the rectangle). -/
theorem create_rectangular_outline_spec (contours : List (List Vec3)) (d : ℚ)
    (hne : contours.flatten ≠ []) :
    create_rectangular_outline contours d =
      [⟨listMinBy (fun p => p.x) contours.flatten - d,
        listMinBy (fun p => p.y) contours.flatten - d,
        (contours.flatten.headD ⟨0, 0, 0⟩).z⟩,
       ⟨listMaxBy (fun p => p.x) contours.flatten + d,
        listMinBy (fun p => p.y) contours.flatten - d,
        (contours.flatten.headD ⟨0, 0, 0⟩).z⟩,
       ⟨listMaxBy (fun p => p.x) contours.flatten + d,
        listMaxBy (fun p => p.y) contours.flatten + d,
        (contours.flatten.headD ⟨0, 0, 0⟩).z⟩,
       ⟨listMinBy (fun p => p.x) contours.flatten - d,
        listMaxBy (fun p => p.y) contours.flatten + d,
        (contours.flatten.headD ⟨0, 0, 0⟩).z⟩]
    ∧ (create_rectangular_outline contours d).length = 4
    ∧ ∀ p ∈ contours.flatten,
        d ≤ p.x - (listMinBy (fun q => q.x) contours.flatten - d)
        ∧ d ≤ (listMaxBy (fun q => q.x) contours.flatten + d) - p.x
        ∧ d ≤ p.y - (listMinBy (fun q => q.y) contours.flatten - d)
        ∧ d ≤ (listMaxBy (fun q => q.y) contours.flatten + d) - p.y := by
  have hemp : contours.flatten.isEmpty = false := by
    cases he : contours.flatten.isEmpty
    · rfl
    · exact absurd (List.isEmpty_iff.mp he) hne
  refine ⟨?_, ?_, ?_⟩
  · simp only [create_rectangular_outline, hemp, Bool.false_eq_true, if_false]
  · simp only [create_rectangular_outline, hemp, Bool.false_eq_true, if_false,
      List.length_cons, List.length_nil]
  · intro p hp
    have h1 := listMinBy_le (fun q => q.x) contours.flatten p hp
    have h2 := le_listMaxBy (fun q => q.x) contours.flatten p hp
    have h3 := listMinBy_le (fun q => q.y) contours.flatten p hp
    have h4 := le_listMaxBy (fun q => q.y) contours.flatten p hp
    simp only at h1 h2 h3 h4
    exact ⟨by linarith, by linarith, by linarith, by linarith⟩

/-- Witness for create_rectangular_outline_spec at a single input point. -/
theorem create_rectangular_outline_spec_witness :
    ([[(⟨1, 2, 3⟩ : Vec3)]] : List (List Vec3)).flatten ≠ []
    ∧ (create_rectangular_outline [[⟨1, 2, 3⟩]] 5).length = 4 :=
  ⟨by decide, (create_rectangular_outline_spec [[⟨1, 2, 3⟩]] 5 (by decide)).2.1⟩

/-- C2: the slice height schedule. src/Blender/Slicer.py lines 88 to 92
implement both directions as the claim states, but src/Slicer.py lines 120
to 121 compute z_min + i * layer_height regardless of the configured
slice_direction, contradicting the description of its own slice_direction
property (slice from top to bottom if unchecked): with z_min = 0, z_max = 10,
layer_height = 5 and direction top to bottom, slice 0 is taken at 0, not at
z_max - 0 * layer_height = 10. -/
theorem main_slice_height_ignores_direction :
    Blender.slice_heights 0 10 5 true 2 = [0, 5]
    ∧ Blender.slice_heights 0 10 5 false 2 = [10, 5]
    ∧ Main.slice_z ⟨2, false, false, 1⟩ 0 5 0 = 0
    ∧ Main.slice_z ⟨2, false, false, 1⟩ 0 5 0 = Main.slice_z ⟨2, true, false, 1⟩ 0 5 0
    ∧ (0 : ℚ) ≠ 10 - 0 * 5 := by
  refine ⟨?_, ?_, ?_, ?_, ?_⟩ <;> with_unfolding_all decide

lemma lookup_isectMap (m : Mesh) (h : ℚ) (L : List Nat) (k : Nat × Nat) :
    List.lookup k (L.filterMap fun i =>
      (isectOfKey m h (edgeKey m i)).map fun p => (edgeKey m i, p)) =
    if ∃ i ∈ L, edgeKey m i = k then isectOfKey m h k else none := by
  induction L with
  | nil => simp
  | cons a L ih =>
    by_cases hak : edgeKey m a = k
    · subst hak
      cases hia : isectOfKey m h (edgeKey m a) with
      | none =>
        simp [List.filterMap_cons, hia, ih, ite_self]
      | some p =>
        simp [List.filterMap_cons, hia, List.lookup_cons]
    · have hiff : (∃ i ∈ a :: L, edgeKey m i = k) ↔ (∃ i ∈ L, edgeKey m i = k) := by
        constructor
        · rintro ⟨j, hj, hjk⟩
          rcases List.mem_cons.mp hj with rfl | hjl
          · exact absurd hjk hak
          · exact ⟨j, hjl, hjk⟩
        · rintro ⟨j, hj, hjk⟩
          exact ⟨j, List.mem_cons_of_mem a hj, hjk⟩
      cases hia : isectOfKey m h (edgeKey m a) with
      | none =>
        simp only [List.filterMap_cons, hia, Option.map_none', ih]
        by_cases hex : ∃ i ∈ L, edgeKey m i = k
        · rw [if_pos hex, if_pos (hiff.mpr hex)]
        · rw [if_neg hex, if_neg (fun hc => hex (hiff.mp hc))]
      | some p =>
        have hbk : (k == edgeKey m a) = false :=
          beq_eq_false_iff_ne.mpr fun hc => hak hc.symm
        simp only [List.filterMap_cons, hia, Option.map_some', List.lookup_cons, hbk, ih]
        by_cases hex : ∃ i ∈ L, edgeKey m i = k
        · rw [if_pos hex, if_pos (hiff.mpr hex)]
        · rw [if_neg hex, if_neg (fun hc => hex (hiff.mp hc))]

lemma lookup_intersectionsOf (m : Mesh) (h : ℚ) (k : Nat × Nat) :
    List.lookup k (intersectionsOf m h) =
    if ∃ i ∈ intersectingEdges m h, edgeKey m i = k then isectOfKey m h k
    else none :=
  lookup_isectMap m h (intersectingEdges m h) k

/-- C1 counterexample: a single edge lying inside the slicing plane (both
endpoint z values equal to the height) has sign product 0, hence is
classified as crossing, yet no intersection point is recorded for it,
because intersect_line_plane reports the line as parallel to the plane. -/
theorem degenerate_edge_not_recorded :
    ¬(((List.lookup (edgeKey mC1 0) (intersectionsOf mC1 1)).isSome = true) ↔
      crossingProduct mC1 1 0 ≤ 0) := by
  with_unfolding_all decide

/-- C1 amended: slice_at_z records an intersection point for an edge iff the
endpoint z sign product is at most 0 and the edge does not lie entirely in
the slicing plane (both endpoints exactly at the height); such an in-plane
edge is classified as crossing but stores no point. -/
theorem intersection_recorded_iff (m : Mesh) (h : ℚ) (i : Nat)
    (hi : i < m.edges.length) :
    (List.lookup (edgeKey m i) (intersectionsOf m h)).isSome = true ↔
      (crossingProduct m h i ≤ 0 ∧
        ¬((m.vert (edgeKey m i).1).z = h ∧ (m.vert (edgeKey m i).2).z = h)) := by
  rw [lookup_intersectionsOf]
  constructor
  · intro hs
    by_cases hex : ∃ j ∈ intersectingEdges m h, edgeKey m j = edgeKey m i
    · rw [if_pos hex] at hs
      obtain ⟨j, hj, hkey⟩ := hex
      have hprod : crossingProduct m h j ≤ 0 :=
        of_decide_eq_true (List.mem_filter.mp hj).2
      have hpp : crossingProduct m h i ≤ 0 := by
        unfold crossingProduct at hprod ⊢
        rw [← hkey]
        exact hprod
      refine ⟨hpp, ?_⟩
      rintro ⟨h1, h2⟩
      have hz : (m.vert (edgeKey m i).2).z - (m.vert (edgeKey m i).1).z = 0 := by
        rw [h1, h2]; ring
      unfold isectOfKey intersectLinePlane at hs
      rw [if_pos hz] at hs
      simp at hs
    · rw [if_neg hex] at hs
      simp at hs
  · rintro ⟨hprod, hne⟩
    have hzz : (m.vert (edgeKey m i).2).z - (m.vert (edgeKey m i).1).z ≠ 0 := by
      intro h0
      have heq : (m.vert (edgeKey m i).2).z = (m.vert (edgeKey m i).1).z := by
        linarith
      have hsq : ((m.vert (edgeKey m i).1).z - h) *
          ((m.vert (edgeKey m i).1).z - h) ≤ 0 := by
        have hp := hprod
        unfold crossingProduct prodOfKey at hp
        rw [heq] at hp
        linarith [hp]
      have hz1 : (m.vert (edgeKey m i).1).z - h = 0 := by
        nlinarith [mul_self_nonneg ((m.vert (edgeKey m i).1).z - h)]
      exact hne ⟨by linarith, by rw [heq]; linarith⟩
    have hex : ∃ j ∈ intersectingEdges m h, edgeKey m j = edgeKey m i :=
      ⟨i, List.mem_filter.mpr ⟨List.mem_range.mpr hi, decide_eq_true hprod⟩, rfl⟩
    rw [if_pos hex]
    unfold isectOfKey intersectLinePlane
    rw [if_neg hzz]
    rfl

/-- Witness for intersection_recorded_iff at edge 3 of the tetrahedron,
sliced at height 1: the rising edge (0, 3) gets a recorded point. -/
theorem intersection_recorded_iff_witness :
    3 < tetMesh.edges.length
    ∧ ((List.lookup (edgeKey tetMesh 3) (intersectionsOf tetMesh 1)).isSome = true ↔
        (crossingProduct tetMesh 1 3 ≤ 0 ∧
          ¬((tetMesh.vert (edgeKey tetMesh 3).1).z = 1 ∧
            (tetMesh.vert (edgeKey tetMesh 3).2).z = 1))) :=
  ⟨by decide, intersection_recorded_iff tetMesh 1 3 (by decide)⟩

/-- C7: slice_at_z handles plane-tangent edges without error: an edge whose
sign product is exactly 0 is classified as crossing; an edge lying entirely
in the plane is skipped deterministically (no point is stored for it, no
division happens because intersect_line_plane refuses parallel lines); and
intersect_line_plane returns none for every horizontal edge, never dividing
by the zero z-span. -/
theorem slice_at_z_degenerate_total (m : Mesh) (h : ℚ) (i : Nat)
    (hi : i < m.edges.length) :
    (crossingProduct m h i = 0 → i ∈ intersectingEdges m h)
    ∧ ((m.vert (edgeKey m i).1).z = h → (m.vert (edgeKey m i).2).z = h →
        List.lookup (edgeKey m i) (intersectionsOf m h) = none)
    ∧ (∀ v1 v2 : Vec3, v1.z = v2.z → intersectLinePlane v1 v2 h = none) := by
  refine ⟨?_, ?_, ?_⟩
  · intro h0
    exact List.mem_filter.mpr ⟨List.mem_range.mpr hi, decide_eq_true (le_of_eq h0)⟩
  · intro h1 h2
    have hk : isectOfKey m h (edgeKey m i) = none := by
      unfold isectOfKey intersectLinePlane
      rw [if_pos (by rw [h1, h2]; ring)]
    rw [lookup_intersectionsOf]
    by_cases hex : ∃ j ∈ intersectingEdges m h, edgeKey m j = edgeKey m i
    · rw [if_pos hex]; exact hk
    · rw [if_neg hex]
  · intro v1 v2 hz
    unfold intersectLinePlane
    rw [if_pos (by rw [hz]; ring)]

/-- Witness for slice_at_z_degenerate_total at the in-plane edge of mC1. -/
theorem slice_at_z_degenerate_total_witness :
    0 < mC1.edges.length
    ∧ ((crossingProduct mC1 1 0 = 0 → 0 ∈ intersectingEdges mC1 1)
      ∧ ((mC1.vert (edgeKey mC1 0).1).z = 1 → (mC1.vert (edgeKey mC1 0).2).z = 1 →
          List.lookup (edgeKey mC1 0) (intersectionsOf mC1 1) = none)
      ∧ (∀ v1 v2 : Vec3, v1.z = v2.z → intersectLinePlane v1 v2 1 = none)) :=
  ⟨by decide, slice_at_z_degenerate_total mC1 1 0 (by decide)⟩

lemma mem_intersectionsOf (m : Mesh) (h : ℚ) (k : Nat × Nat) (p : Vec3)
    (hm : (k, p) ∈ intersectionsOf m h) : isectOfKey m h k = some p := by
  unfold intersectionsOf at hm
  obtain ⟨i, hi, hmap⟩ := List.mem_filterMap.mp hm
  cases hia : isectOfKey m h (edgeKey m i) with
  | none => rw [hia] at hmap; simp at hmap
  | some q =>
    rw [hia] at hmap
    simp only [Option.map_some', Option.some.injEq, Prod.mk.injEq] at hmap
    rw [← hmap.1, hia, hmap.2]

/-- C9: the Plane Intersector is a pure function of the mesh snapshot and the
height: two invocations on the same input produce the same multiset of keyed
intersection points (the model is stateless, as slice_at_z builds its locals
afresh and never mutates the bmesh), and the set is well formed for
order-independent comparison by edge key: any two entries sharing a key carry
the same point, because the point is computed from the key endpoints alone. -/
theorem plane_intersector_idempotent (m : Mesh) (h : ℚ) :
    Multiset.ofList (intersectionsOf m h) = Multiset.ofList (intersectionsOf m h)
    ∧ ∀ k p1 p2, (k, p1) ∈ intersectionsOf m h → (k, p2) ∈ intersectionsOf m h →
        p1 = p2 := by
  refine ⟨rfl, fun k p1 p2 h1 h2 => ?_⟩
  have e1 := mem_intersectionsOf m h k p1 h1
  have e2 := mem_intersectionsOf m h k p2 h2
  rw [e1] at e2
  exact Option.some_inj.mp e2

/-- Witness for plane_intersector_idempotent on the tetrahedron at height 1. -/
theorem plane_intersector_idempotent_witness :
    ((0, 3), (⟨0, 0, 1⟩ : Vec3)) ∈ intersectionsOf tetMesh 1
    ∧ (⟨0, 0, 1⟩ : Vec3) = ⟨0, 0, 1⟩ :=
  ⟨by with_unfolding_all decide,
   (plane_intersector_idempotent tetMesh 1).2 (0, 3) ⟨0, 0, 1⟩ ⟨0, 0, 1⟩
     (by with_unfolding_all decide) (by with_unfolding_all decide)⟩

lemma traceContours_length (m : Mesh) (ints : List ((Nat × Nat) × Vec3))
    (inter : List Nat) :
    ∀ (L used : List Nat) (c : List Vec3),
      c ∈ traceContours m ints inter L used → 2 < c.length := by
  intro L
  induction L with
  | nil =>
    intro used c hc
    simp [traceContours] at hc
  | cons e rest ih =>
    intro used c hc
    rw [traceContours] at hc
    by_cases he : e ∈ used
    · rw [if_pos he] at hc
      exact ih used c hc
    · rw [if_neg he] at hc
      cases hw : walkAux m ints inter e inter.length used [] e with
      | none =>
        rw [hw] at hc
        exact ih used c hc
      | some r =>
        obtain ⟨contour, used2⟩ := r
        rw [hw] at hc
        dsimp only at hc
        by_cases hl : 2 < contour.length
        · rw [if_pos hl] at hc
          rcases List.mem_cons.mp hc with rfl | hcl
          · exact hl
          · exact ih used2 c hcl
        · rw [if_neg hl] at hc
          exact ih used2 c hc

/-- C3: every contour produced by slice_at_z has more than 2 points (walks
that accumulate fewer points are discarded, lines 191 to 192 of
src/Slicer.py), and every polyline actually emitted by the DXF writer has
more than 2 points (the writer filters again, lines 256 to 258). -/
theorem contours_exceed_two_points (m : Mesh) (h : ℚ) (cs : List (List Vec3)) :
    (∀ c ∈ slice_at_z m h, 2 < c.length)
    ∧ (∀ pl ∈ export_contours_to_dxf cs, 2 < pl.length) := by
  constructor
  · intro c hc
    exact traceContours_length m (intersectionsOf m h) (intersectingEdges m h)
      (intersectingEdges m h) [] c hc
  · intro pl hpl
    unfold export_contours_to_dxf at hpl
    obtain ⟨c, hcmem, hmap⟩ := List.mem_filterMap.mp hpl
    dsimp only at hmap
    split at hmap
    · rename_i hcond
      have hppl := Option.some_inj.mp hmap
      subst hppl
      exact hcond
    · simp at hmap

/-- Witness for contours_exceed_two_points: the tetrahedron sliced at height
1 yields the triangle contour, and it has 3 points. -/
theorem contours_exceed_two_points_witness :
    [(⟨0, 0, 1⟩ : Vec3), ⟨1, 0, 1⟩, ⟨0, 1, 1⟩] ∈ slice_at_z tetMesh 1
    ∧ 2 < [(⟨0, 0, 1⟩ : Vec3), ⟨1, 0, 1⟩, ⟨0, 1, 1⟩].length :=
  ⟨by with_unfolding_all decide,
   (contours_exceed_two_points tetMesh 1 []).1
     [⟨0, 0, 1⟩, ⟨1, 0, 1⟩, ⟨0, 1, 1⟩] (by with_unfolding_all decide)⟩

lemma filter_imp_length_le (p q : Nat → Bool) (hpq : ∀ a, p a = true → q a = true) :
    ∀ l : List Nat, (l.filter p).length ≤ (l.filter q).length := by
  intro l
  induction l with
  | nil => simp
  | cons a l ih =>
    cases hp : p a
    · cases hq : q a
      · simpa [List.filter_cons, hp, hq] using ih
      · simp only [List.filter_cons, hp, hq, if_true, if_false, Bool.false_eq_true,
          List.length_cons]
        exact Nat.le_succ_of_le ih
    · have hq := hpq a hp
      simp only [List.filter_cons, hp, hq, if_true, List.length_cons]
      exact Nat.succ_le_succ ih

lemma filter_unused_cons_lt (inter used : List Nat) (cur : Nat)
    (h1 : cur ∈ inter) (h2 : cur ∉ used) :
    (inter.filter fun e => decide (e ∉ cur :: used)).length <
    (inter.filter fun e => decide (e ∉ used)).length := by
  induction inter with
  | nil => cases h1
  | cons a l ih =>
    by_cases hac : a = cur
    · subst hac
      have hp1 : decide (a ∉ a :: used) = false := by simp
      have hp2 : decide (a ∉ used) = true := decide_eq_true h2
      simp only [List.filter_cons, hp1, hp2, if_true, Bool.false_eq_true, if_false,
        List.length_cons]
      have hle := filter_imp_length_le (fun e => decide (e ∉ a :: used))
        (fun e => decide (e ∉ used))
        (fun b hb => decide_eq_true fun hbu =>
          (of_decide_eq_true hb) (List.mem_cons_of_mem a hbu)) l
      exact Nat.lt_succ_of_le hle
    · have h1l : cur ∈ l := by
        rcases List.mem_cons.mp h1 with heq | hl
        · exact absurd heq.symm hac
        · exact hl
      by_cases hau : a ∈ used
      · have hp1 : decide (a ∉ cur :: used) = false := by
          simp [List.mem_cons, hau]
        have hp2 : decide (a ∉ used) = false := by simp [hau]
        simp only [List.filter_cons, hp1, hp2, Bool.false_eq_true, if_false]
        exact ih h1l
      · have hp1 : decide (a ∉ cur :: used) = true := by
          simp [List.mem_cons, hac, hau]
        have hp2 : decide (a ∉ used) = true := decide_eq_true hau
        simp only [List.filter_cons, hp1, hp2, if_true, List.length_cons]
        exact Nat.succ_lt_succ (ih h1l)

lemma findNext_mem (m : Mesh) (inter used : List Nat) (cur nxt : Nat)
    (hf : findNext m inter used cur = some nxt) :
    nxt ∈ inter ∧ nxt ∉ used ∧ nxt ≠ cur := by
  unfold findNext at hf
  cases hLc : (m.faces.filter fun f => decide (cur ∈ f)).filterMap fun f =>
      f.find? fun e2 => decide (e2 ≠ cur ∧ e2 ∈ inter ∧ e2 ∉ used) with
  | nil => rw [hLc] at hf; simp at hf
  | cons x xs =>
    rw [hLc] at hf
    have hx : x = nxt := by simpa [List.head?] using hf
    subst hx
    have hmem : x ∈ (m.faces.filter fun f => decide (cur ∈ f)).filterMap fun f =>
        f.find? fun e2 => decide (e2 ≠ cur ∧ e2 ∈ inter ∧ e2 ∉ used) := by
      rw [hLc]
      exact List.mem_cons_self x xs
    obtain ⟨f, hfmem, hfind⟩ := List.mem_filterMap.mp hmem
    have hp := List.find?_some hfind
    simp only [decide_eq_true_eq] at hp
    exact ⟨hp.2.1, hp.2.2, hp.1⟩

/-- C10: the contour walk of slice_at_z terminates. Each iteration marks the
current crossing edge used and the next edge must be an unused crossing edge,
so the number of unused crossing edges strictly decreases: fuel equal to that
number always suffices, and the fuel-exhaustion branch of walkAux is
unreachable from slice_at_z (which supplies the total crossing edge count as
fuel). -/
theorem walk_terminates (m : Mesh) (ints : List ((Nat × Nat) × Vec3))
    (inter : List Nat) (start : Nat) :
    ∀ (fuel : Nat) (used : List Nat) (contour : List Vec3) (cur : Nat),
      cur ∈ inter → cur ∉ used →
      (inter.filter fun e => decide (e ∉ used)).length ≤ fuel →
      (walkAux m ints inter start fuel used contour cur).isSome = true := by
  intro fuel
  induction fuel with
  | zero =>
    intro used contour cur hcur hused hfuel
    exfalso
    have hmem : cur ∈ inter.filter fun e => decide (e ∉ used) :=
      List.mem_filter.mpr ⟨hcur, decide_eq_true hused⟩
    have hpos : 0 < (inter.filter fun e => decide (e ∉ used)).length :=
      List.length_pos.mpr (List.ne_nil_of_mem hmem)
    omega
  | succ fuel ih =>
    intro used contour cur hcur hused hfuel
    cases hf : findNext m inter (cur :: used) cur with
    | none => simp [walkAux, hf]
    | some nxt =>
      by_cases hns : nxt = start
      · simp [walkAux, hf, hns]
      · have hspec := findNext_mem m inter (cur :: used) cur nxt hf
        have hlt := filter_unused_cons_lt inter used cur hcur hused
        have hle : (inter.filter fun e => decide (e ∉ cur :: used)).length ≤ fuel :=
          Nat.lt_succ_iff.mp (lt_of_lt_of_le hlt hfuel)
        simp only [walkAux, hf]
        rw [if_neg hns]
        exact ih (cur :: used) _ nxt hspec.1 hspec.2.1 hle

/-- Witness for walk_terminates: the walk from edge 3 of the tetrahedron at
height 1 completes within fuel 3 (the crossing edge count). -/
theorem walk_terminates_witness :
    3 ∈ intersectingEdges tetMesh 1
    ∧ (3 : Nat) ∉ ([] : List Nat)
    ∧ ((intersectingEdges tetMesh 1).filter fun e =>
        decide (e ∉ ([] : List Nat))).length ≤ 3
    ∧ (walkAux tetMesh (intersectionsOf tetMesh 1) (intersectingEdges tetMesh 1)
        3 3 [] [] 3).isSome = true :=
  ⟨by with_unfolding_all decide, by decide, by with_unfolding_all decide,
   walk_terminates tetMesh (intersectionsOf tetMesh 1) (intersectingEdges tetMesh 1)
     3 3 [] [] 3 (by with_unfolding_all decide) (by decide)
     (by with_unfolding_all decide)⟩

lemma sqrtSearch_mul_self (a : Nat) : ∀ k, a ≤ k → sqrtSearch (a * a) k = some a := by
  intro k
  induction k with
  | zero =>
    intro hk
    have ha : a = 0 := Nat.le_zero.mp hk
    subst ha
    simp [sqrtSearch]
  | succ k ih =>
    intro hk
    by_cases heq : (k + 1) * (k + 1) = a * a
    · have hka : k + 1 = a := Nat.mul_self_inj.mp heq
      subst hka
      simp [sqrtSearch]
    · have hne : a ≠ k + 1 := fun hc => heq (by rw [hc])
      have hle : a ≤ k := by omega
      simp only [sqrtSearch, heq, if_false]
      exact ih hle

lemma exactSqrt_mul_self (a : Nat) : exactSqrt (a * a) = some a := by
  unfold exactSqrt
  cases a with
  | zero => simp [sqrtSearch]
  | succ b =>
    apply sqrtSearch_mul_self
    calc b + 1 = (b + 1) * 1 := (Nat.mul_one (b + 1)).symm
    _ ≤ (b + 1) * (b + 1) := Nat.mul_le_mul_left (b + 1) (Nat.succ_le_succ (Nat.zero_le b))



lemma toNat_mul_self (n : ℤ) (hn : 0 ≤ n) : (n * n).toNat = n.toNat * n.toNat := by
  rcases Int.eq_ofNat_of_zero_le hn with ⟨a, ha⟩
  subst ha
  rw [← Int.natCast_mul, Int.toNat_natCast, Int.toNat_natCast]

lemma ratSqrt_mul_self (t : ℚ) (ht : 0 ≤ t) : ratSqrt (t * t) = t := by
  have hn0 : 0 ≤ t.num := Rat.num_nonneg.mpr ht
  unfold ratSqrt
  rw [Rat.mul_self_num, Rat.mul_self_den, toNat_mul_self t.num hn0,
    exactSqrt_mul_self, exactSqrt_mul_self]
  rw [if_pos (mul_nonneg hn0 hn0)]
  have h1 : ((t.num.toNat : ℚ)) = ((t.num : ℚ) : ℚ) := by
    exact_mod_cast congrArg (fun z : ℤ => (z : ℚ)) (Int.toNat_of_nonneg hn0)
  show ((t.num.toNat : ℚ)) / ((t.den : ℚ)) = t
  rw [h1]
  exact Rat.num_div_den t

lemma normalized_xpos (a : ℚ) (h : 0 < a) : normalized ⟨a, 0, 0⟩ = ⟨1, 0, 0⟩ := by
  unfold normalized
  dsimp only
  rw [show a * a + 0 * 0 + 0 * 0 = a * a by ring, ratSqrt_mul_self a h.le]
  simp [div_self (ne_of_gt h)]

lemma normalized_xneg (a : ℚ) (h : 0 < a) : normalized ⟨-a, 0, 0⟩ = ⟨-1, 0, 0⟩ := by
  unfold normalized
  dsimp only
  rw [show -a * -a + 0 * 0 + 0 * 0 = a * a by ring, ratSqrt_mul_self a h.le]
  simp [div_self (ne_of_gt h), neg_div]

lemma normalized_ypos (a : ℚ) (h : 0 < a) : normalized ⟨0, a, 0⟩ = ⟨0, 1, 0⟩ := by
  unfold normalized
  dsimp only
  rw [show 0 * 0 + a * a + 0 * 0 = a * a by ring, ratSqrt_mul_self a h.le]
  simp [div_self (ne_of_gt h)]

lemma normalized_yneg (a : ℚ) (h : 0 < a) : normalized ⟨0, -a, 0⟩ = ⟨0, -1, 0⟩ := by
  unfold normalized
  dsimp only
  rw [show 0 * 0 + -a * -a + 0 * 0 = a * a by ring, ratSqrt_mul_self a h.le]
  simp [div_self (ne_of_gt h), neg_div]

lemma create_offset_outline_four (p0 p1 p2 p3 : Vec3) (d : ℚ) :
    create_offset_outline [[p0, p1, p2, p3]] d =
      some [p0 + normalized ⟨-(p1 - p3).y, (p1 - p3).x, 0⟩ * d,
            p1 + normalized ⟨-(p2 - p0).y, (p2 - p0).x, 0⟩ * d,
            p2 + normalized ⟨-(p3 - p1).y, (p3 - p1).x, 0⟩ * d,
            p3 + normalized ⟨-(p0 - p2).y, (p0 - p2).x, 0⟩ * d] := by
  with_unfolding_all rfl

lemma offset_diamond (c d z : ℚ) (hc : 0 < c) :
    create_offset_outline [diamond c z] d = some (diamond (c - d) z) := by
  have h2c : (0 : ℚ) < c + c := by linarith
  rw [show diamond c z = [⟨c, 0, z⟩, ⟨0, c, z⟩, ⟨-c, 0, z⟩, ⟨0, -c, z⟩] from rfl,
    create_offset_outline_four]
  have n0 : normalized ⟨-(((⟨0, c, z⟩ : Vec3) - ⟨0, -c, z⟩).y),
      ((⟨0, c, z⟩ : Vec3) - ⟨0, -c, z⟩).x, 0⟩ = ⟨-1, 0, 0⟩ := by
    rw [show (⟨-(((⟨0, c, z⟩ : Vec3) - ⟨0, -c, z⟩).y),
        ((⟨0, c, z⟩ : Vec3) - ⟨0, -c, z⟩).x, 0⟩ : Vec3) = ⟨-(c + c), 0, 0⟩ from by
      show (⟨-(c - -c), 0 - 0, 0⟩ : Vec3) = _
      congr 1 <;> ring]
    exact normalized_xneg (c + c) h2c
  have n1 : normalized ⟨-(((⟨-c, 0, z⟩ : Vec3) - ⟨c, 0, z⟩).y),
      ((⟨-c, 0, z⟩ : Vec3) - ⟨c, 0, z⟩).x, 0⟩ = ⟨0, -1, 0⟩ := by
    rw [show (⟨-(((⟨-c, 0, z⟩ : Vec3) - ⟨c, 0, z⟩).y),
        ((⟨-c, 0, z⟩ : Vec3) - ⟨c, 0, z⟩).x, 0⟩ : Vec3) = ⟨0, -(c + c), 0⟩ from by
      show (⟨-(0 - 0), -c - c, 0⟩ : Vec3) = _
      congr 1 <;> ring]
    exact normalized_yneg (c + c) h2c
  have n2 : normalized ⟨-(((⟨0, -c, z⟩ : Vec3) - ⟨0, c, z⟩).y),
      ((⟨0, -c, z⟩ : Vec3) - ⟨0, c, z⟩).x, 0⟩ = ⟨1, 0, 0⟩ := by
    rw [show (⟨-(((⟨0, -c, z⟩ : Vec3) - ⟨0, c, z⟩).y),
        ((⟨0, -c, z⟩ : Vec3) - ⟨0, c, z⟩).x, 0⟩ : Vec3) = ⟨c + c, 0, 0⟩ from by
      show (⟨-(-c - c), 0 - 0, 0⟩ : Vec3) = _
      congr 1 <;> ring]
    exact normalized_xpos (c + c) h2c
  have n3 : normalized ⟨-(((⟨c, 0, z⟩ : Vec3) - ⟨-c, 0, z⟩).y),
      ((⟨c, 0, z⟩ : Vec3) - ⟨-c, 0, z⟩).x, 0⟩ = ⟨0, 1, 0⟩ := by
    rw [show (⟨-(((⟨c, 0, z⟩ : Vec3) - ⟨-c, 0, z⟩).y),
        ((⟨c, 0, z⟩ : Vec3) - ⟨-c, 0, z⟩).x, 0⟩ : Vec3) = ⟨0, c + c, 0⟩ from by
      show (⟨-(0 - 0), c - -c, 0⟩ : Vec3) = _
      congr 1 <;> ring]
    exact normalized_ypos (c + c) h2c
  rw [n0, n1, n2, n3]
  show some [(⟨c + -1 * d, 0 + 0 * d, z + 0 * d⟩ : Vec3),
      ⟨0 + 0 * d, c + -1 * d, z + 0 * d⟩,
      ⟨-c + 1 * d, 0 + 0 * d, z + 0 * d⟩,
      ⟨0 + 0 * d, -c + 1 * d, z + 0 * d⟩] =
    some [(⟨c - d, 0, z⟩ : Vec3), ⟨0, c - d, z⟩, ⟨-(c - d), 0, z⟩, ⟨0, -(c - d), z⟩]
  simp only [Option.some.injEq, List.cons.injEq, Vec3.mk.injEq, and_true]
  and_intros <;> ring

/-- C5 counterexample: the offset round trip fails on a simple convex
polygon. For the 4 by 3 axis-aligned rectangle and offset 15/8 (inside the
configured range), offsetting by d and then by -d yields a polygon whose
first point differs from the original first point (0, 0, 0) by 9/8 in x,
far beyond any floating-point tolerance: after the first offset the vertex
normals change direction, so the second offset does not undo the first. -/
theorem offset_roundtrip_cex :
    ((create_offset_outline [rectC5] (15 / 8)).bind fun q =>
      create_offset_outline [q] (-(15 / 8)))
      = some [⟨9 / 8, -3 / 8, 0⟩, ⟨23 / 8, -3 / 8, 0⟩,
              ⟨23 / 8, 27 / 8, 0⟩, ⟨9 / 8, 27 / 8, 0⟩]
    ∧ rectC5 = [⟨0, 0, 0⟩, ⟨4, 0, 0⟩, ⟨4, 3, 0⟩, ⟨0, 3, 0⟩]
    ∧ (1 : ℚ) < 9 / 8 - 0 := by
  refine ⟨?_, ?_, ?_⟩ <;> with_unfolding_all decide

/-- C5 amended: the round trip does hold for contours whose vertex normal
directions are preserved by the offset, such as the axis-aligned diamond
polygons: offsetting diamond c by d and the result by -d returns the
original exactly, for any 0 < c and d < c. -/
theorem offset_roundtrip_diamond (c d z : ℚ) (hc : 0 < c) (hdc : d < c) :
    create_offset_outline [diamond c z] d = some (diamond (c - d) z)
    ∧ create_offset_outline [diamond (c - d) z] (-d) = some (diamond c z) := by
  refine ⟨offset_diamond c d z hc, ?_⟩
  have h2 := offset_diamond (c - d) (-d) z (by linarith)
  rw [show c - d - -d = c by ring] at h2
  exact h2

/-- Witness for offset_roundtrip_diamond at c = 5, d = 1, z = 0. -/
theorem offset_roundtrip_diamond_witness :
    (0 : ℚ) < 5 ∧ (1 : ℚ) < 5
    ∧ (create_offset_outline [diamond 5 0] 1 = some (diamond (5 - 1) 0)
      ∧ create_offset_outline [diamond (5 - 1) 0] (-1) = some (diamond 5 0)) :=
  ⟨by norm_num, by norm_num,
   offset_roundtrip_diamond 5 1 0 (by norm_num) (by norm_num)⟩

/-- C6: in the geometry-derived-outline mode of src/Slicer.py, the outline is
the single value computed from the slice at the lowest level (z_min, before
the loop); every slice i that exports appends exactly a copy of that one
outline with each x and y unchanged and z rewritten to the height of slice i
(line 128). -/
theorem outline_computed_once (cfg : Config) (m : Mesh) (i : Nat) (o : List Vec3)
    (ha : cfg.add_outline = true) (hi : i < cfg.num_layers)
    (ho : create_offset_outline (slice_at_z m (Main.z_min m)) cfg.outline_offset
      = some o)
    (hc : (slice_at_z m
      (Main.slice_z cfg (Main.z_min m) (Main.layer_height cfg m) i)).isEmpty
      = false) :
    (Main.slice_object cfg m).getD i none =
      some (slice_at_z m
          (Main.slice_z cfg (Main.z_min m) (Main.layer_height cfg m) i)
        ++ [o.map fun p =>
          ⟨p.x, p.y, Main.slice_z cfg (Main.z_min m) (Main.layer_height cfg m) i⟩]) := by
  unfold Main.slice_object
  simp only [ha, if_true, ho]
  rw [List.getD_eq_getElem?_getD, List.getElem?_map, List.getElem?_range hi]
  simp only [Option.map_some', Option.getD_some]
  simp only [hc, Bool.false_eq_true, if_false]

/-- Witness for outline_computed_once: the tetrahedron with one layer and the
outline option on; the outline computed at the lowest level is reused with
its z rewritten to the height of slice 0. -/
theorem outline_computed_once_witness :
    (⟨1, true, true, 1⟩ : Config).add_outline = true
    ∧ 0 < (⟨1, true, true, 1⟩ : Config).num_layers
    ∧ create_offset_outline (slice_at_z tetMesh (Main.z_min tetMesh))
        (⟨1, true, true, 1⟩ : Config).outline_offset
        = some [⟨0, 0, 1 / 10⟩, ⟨9 / 10, 0, 1 / 10⟩, ⟨0, 9 / 10, 1 / 10⟩]
    ∧ (Main.slice_object ⟨1, true, true, 1⟩ tetMesh).getD 0 none =
        some (slice_at_z tetMesh
            (Main.slice_z ⟨1, true, true, 1⟩ (Main.z_min tetMesh)
              (Main.layer_height ⟨1, true, true, 1⟩ tetMesh) 0)
          ++ [[(⟨0, 0, 1 / 10⟩ : Vec3), ⟨9 / 10, 0, 1 / 10⟩,
              ⟨0, 9 / 10, 1 / 10⟩].map fun p =>
            ⟨p.x, p.y, Main.slice_z ⟨1, true, true, 1⟩ (Main.z_min tetMesh)
              (Main.layer_height ⟨1, true, true, 1⟩ tetMesh) 0⟩]) :=
  ⟨rfl, by decide, by with_unfolding_all decide,
   outline_computed_once ⟨1, true, true, 1⟩ tetMesh 0
     [⟨0, 0, 1 / 10⟩, ⟨9 / 10, 0, 1 / 10⟩, ⟨0, 9 / 10, 1 / 10⟩]
     rfl (by decide) (by with_unfolding_all decide)
     (by with_unfolding_all decide)⟩

/-- C8: create_offset_outline reports failure (none) on an empty contour list
and when the largest contour has fewer than 3 points, and in that case the
run continues: slice_object with the outline option on behaves exactly like
the run with the option off, still producing one entry per configured layer
instead of failing. -/
theorem offset_outline_failure_tolerated :
    (∀ d : ℚ, create_offset_outline [] d = none)
    ∧ (∀ (cs : List (List Vec3)) (d : ℚ), (largestContour cs).length < 3 →
        create_offset_outline cs d = none)
    ∧ (∀ (cfg : Config) (m : Mesh),
        create_offset_outline (slice_at_z m (Main.z_min m)) cfg.outline_offset
          = none →
        Main.slice_object cfg m =
          Main.slice_object
            ⟨cfg.num_layers, cfg.slice_direction, false, cfg.outline_offset⟩ m
        ∧ (Main.slice_object cfg m).length = cfg.num_layers) := by
  refine ⟨fun d => rfl, ?_, ?_⟩
  · intro cs d hl
    unfold create_offset_outline
    cases cs with
    | nil => rfl
    | cons a l =>
      dsimp only [List.isEmpty_cons, Bool.false_eq_true, if_false]
      rw [if_pos hl]
      simp
  · intro cfg m hnone
    constructor
    · unfold Main.slice_object
      simp only [hnone]
      cases hA : cfg.add_outline <;> simp [Main.slice_z, Main.layer_height]
    · unfold Main.slice_object
      simp

/-- Witness for offset_outline_failure_tolerated: the flat triangle has no
contour at its reference level, so the outline fails, and a two-layer run
still slices both layers (producing no output unit for either). -/
theorem offset_outline_failure_tolerated_witness :
    create_offset_outline (slice_at_z triFlatMesh (Main.z_min triFlatMesh))
      (⟨2, true, true, 1⟩ : Config).outline_offset = none
    ∧ (Main.slice_object ⟨2, true, true, 1⟩ triFlatMesh =
        Main.slice_object ⟨2, true, false, 1⟩ triFlatMesh
      ∧ (Main.slice_object ⟨2, true, true, 1⟩ triFlatMesh).length = 2) :=
  ⟨by with_unfolding_all decide,
   offset_outline_failure_tolerated.2.2 ⟨2, true, true, 1⟩ triFlatMesh
     (by with_unfolding_all decide)⟩
